import Mathlib

/-!
Verification model of the chain-of-title resolver in
`src/backend/src/services/AssignmentChainAnalyzer.js` (class `AssignmentChainAnalyzer`).

JavaScript values are modelled as follows: a possibly-`null` string is an
`Option String` (with JS falsiness: both `null` and the empty string are falsy);
JS numbers arising in the similarity / confidence computations are exact
rationals (`Rat`); dates flowing through the resolver are the ISO `YYYY-MM-DD`
strings produced by `parseDate`, whose `Date.getTime()` order coincides with
lexicographic string order.  Strings are treated as their character lists
(ASCII inputs).
-/

namespace NplVision

/-- JS truthiness of a nullable string: `null` and `""` are falsy. -/
def truthy : Option String → Bool
  | none => false
  | some s => s ≠ ""

/-- JS `a || b` on nullable strings. -/
def jsOr (a b : Option String) : Option String :=
  if truthy a then a else b

/-- JS `a || "d"`: the value of `a` when truthy, otherwise the default. -/
def jsGetD (a : Option String) (d : String) : String :=
  match a with
  | some s => if s = "" then d else s
  | none => d

/-- The string carried by a nullable value (`""` for `null`). -/
def getS : Option String → String
  | none => ""
  | some s => s

/-- JS `String.prototype.toLowerCase` (ASCII). -/
def jsLower (s : String) : String := ⟨s.data.map Char.toLower⟩

/-- JS `String.prototype.trim`. -/
def jsTrim (s : String) : String :=
  ⟨(s.data.dropWhile Char.isWhitespace).reverse.dropWhile Char.isWhitespace |>.reverse⟩

/-- Substring test on character lists (JS `String.prototype.includes`). -/
def containsList : List Char → List Char → Bool
  | _, [] => true
  | [], _ :: _ => false
  | h :: t, n => (n.isPrefixOf (h :: t)) || containsList t n

/-- JS `haystack.includes(needle)`. -/
def jsIncludes (hay needle : String) : Bool :=
  containsList hay.data needle.data

/-- JS `Math.round` for the non-negative values produced here: `⌊x + 1/2⌋`. -/
def jsRound (x : Rat) : Int := (x + 1/2).floor

/-- One row-update of the Levenshtein dynamic program: given the character `a`
of the first string, the remaining characters `bs` of the second string, the
cell diagonally above-left (`diag`), the rest of the previous row, and the cell
to the left (`left`), produce the rest of the current row.  Mirrors the inner
loop of `levenshteinDistance`. -/
def levStep (a : Char) : List Char → Nat → List Nat → Nat → List Nat
  | [], _, _, _ => []
  | b :: bs, diag, prev, left =>
    let up := prev.headD 0
    let cur := if a = b then diag else Nat.min (Nat.min (diag + 1) (left + 1)) (up + 1)
    cur :: levStep a bs up prev.tail cur

/-- Levenshtein edit distance (`levenshteinDistance` in the source, which fills
the same dynamic-programming matrix row by row). -/
def levenshtein (s1 s2 : List Char) : Nat :=
  let row0 := (List.range (s2.length + 1))
  let last := s1.foldl
    (fun (st : Nat × List Nat) a =>
      let i := st.1 + 1
      (i, i :: levStep a s2 (st.2.headD 0) st.2.tail i))
    (0, row0)
  (last.2.getLast? ).getD 0

/-- The static successor/acquisition table `getKnownSuccessors`. -/
def getKnownSuccessors : List (String × String) :=
  [ ("countrywide home loans, incorporated", "bank of america, na"),
    ("countrywide home loans, inc", "bank of america, na"),
    ("countrywide bank, na", "bank of america, na"),
    ("countrywide bank, fsb", "bank of america, na"),
    ("bac home loans servicing, lp", "bank of america, na"),
    ("residential funding company, llc", "ally bank"),
    ("gmac mortgage, llc", "ally bank"),
    ("chase home finance llc", "jpmorgan chase bank, na"),
    ("washington mutual bank", "jpmorgan chase bank, na"),
    ("wamu", "jpmorgan chase bank, na"),
    ("wells fargo home mortgage", "wells fargo bank, na"),
    ("world savings bank, fsb", "wells fargo bank, na"),
    ("wachovia mortgage, fsb", "wells fargo bank, na") ]

/-- `successors[key]` object lookup. -/
def succLookup (key : String) : Option String :=
  (getKnownSuccessors.find? (fun p => p.1 = key)).map (·.2)

/-- The banking terms used by the undocumented similarity boost. -/
def bankTerms : List String :=
  ["bank", "mortgage", "financial", "lending", "loan", "trust", "national", "home"]

/-- `bankTerms.filter(term => norm1.includes(term) && norm2.includes(term)).length`. -/
def commonTermCount (norm1 norm2 : String) : Nat :=
  (bankTerms.filter (fun t => jsIncludes norm1 t && jsIncludes norm2 t)).length

/-- The raw edit-distance similarity `(longer.length - editDistance) / longer.length`
computed by `calculateSimilarity` (with `longer`/`shorter` chosen by length,
ties giving `longer = str2`). -/
def editSimilarity (str1 str2 : String) : Rat :=
  let longer := if str1.length > str2.length then str1 else str2
  let shorter := if str1.length > str2.length then str2 else str1
  let d := levenshtein (jsLower longer).data (jsLower shorter).data
  ((longer.length : Rat) - d) / longer.length

/-- `calculateSimilarity(str1, str2)`: successor-table lookup first, then
normalized edit distance, with a `+0.1` boost (capped at 1) when the raw
similarity is at least 0.7 and the lower-cased trimmed strings share at least
two banking terms. -/
def calculateSimilarity (str1 str2 : Option String) : Rat :=
  if ¬ truthy str1 ∨ ¬ truthy str2 then 0 else
  let s1 := getS str1
  let s2 := getS str2
  let norm1 := jsTrim (jsLower s1)
  let norm2 := jsTrim (jsLower s2)
  -- `successors[norm1] === norm2 || successors[norm2] === norm1` (the two
  -- following single-sided checks in the source are subsumed by this test)
  if succLookup norm1 = some norm2 ∨ succLookup norm2 = some norm1 then 1 else
  let longer := if s1.length > s2.length then s1 else s2
  if longer.length = 0 then 1 else
  let similarity := editSimilarity s1 s2
  if similarity ≥ 0.7 ∧ 2 ≤ commonTermCount norm1 norm2 then
    min 1 (similarity + 0.1)
  else similarity

/-! ### A small matcher for the JavaScript regular expressions of the analyzer

Each regular expression literal in the source is transcribed node for node
into a `Re` value below.  The matcher implements the backtracking preference
order of JavaScript regexes (leftmost match position, alternatives in order,
greedy/lazy repetition), which fully determines the behaviour of the patterns
used here (no backreferences or lookaround occur). -/

/-- Regex abstract syntax: `tok` is a one-character class, `opt` is greedy `?`,
`star`/`starL` are greedy `*` and lazy `*?`, `grp` is the capturing group,
`bos`/`eos` are `^`/`$`, `wb` is `\b`. -/
inductive Re where
  | eps : Re
  | tok (p : Char → Bool) : Re
  | seq (a b : Re) : Re
  | alt (a b : Re) : Re
  | opt (a : Re) : Re
  | star (a : Re) : Re
  | starL (a : Re) : Re
  | grp (a : Re) : Re
  | bos : Re
  | eos : Re
  | wb : Re

/-- Is this character a word character for `\b` purposes? -/
def isWordChar (c : Char) : Bool := c.isAlphanum || c = '_'

/-- `\b` context from an optional adjacent character. -/
def isWordO : Option Char → Bool
  | none => false
  | some c => isWordChar c

/-- The state a matcher continuation receives: the character before the
position, the remaining input, and the capture recorded so far; the result of
a full match is the remaining input and the capture. -/
abbrev MCont : Type :=
  Option Char → List Char → Option (List Char) → Option (List Char × Option (List Char))

/-- Greedy repetition loop (`*`): prefer one more iteration of the body `m`
(which must consume input — true of every repetition body in the source
patterns) over exiting to the continuation.  The fuel bounds iterations; since
each one consumes a character, input length as fuel is never the binding
constraint. -/
def starG (m : Option Char → List Char → Option (List Char) → MCont →
    Option (List Char × Option (List Char))) :
    Nat → Option Char → List Char → Option (List Char) → MCont →
    Option (List Char × Option (List Char))
  | 0, prev, s, cap, k => k prev s cap
  | f + 1, prev, s, cap, k =>
    (m prev s cap (fun p' s' c' =>
      if s'.length < s.length then starG m f p' s' c' k else none)).orElse
      (fun _ => k prev s cap)

/-- Lazy repetition loop (`*?`): prefer exiting to the continuation over one
more iteration of the body. -/
def starLz (m : Option Char → List Char → Option (List Char) → MCont →
    Option (List Char × Option (List Char))) :
    Nat → Option Char → List Char → Option (List Char) → MCont →
    Option (List Char × Option (List Char))
  | 0, prev, s, cap, k => k prev s cap
  | f + 1, prev, s, cap, k =>
    (k prev s cap).orElse (fun _ =>
      m prev s cap (fun p' s' c' =>
        if s'.length < s.length then starLz m f p' s' c' k else none))

/-- Backtracking matcher in continuation-passing style.  `prev` is the
character before the current position (for `^` and `\b`).  Alternatives are
tried in order and repetition preference is greedy/lazy as marked, matching
the JavaScript backtracking order. -/
def matchR (fuel : Nat) : Re → Option Char → List Char → Option (List Char) → MCont →
    Option (List Char × Option (List Char))
  | .eps, prev, s, cap, k => k prev s cap
  | .tok p, prev, s, cap, k =>
    match s, prev with
    | [], _ => none
    | c :: rest, _ => if p c then k (some c) rest cap else none
  | .seq a b, prev, s, cap, k =>
    matchR fuel a prev s cap (fun p' s' c' => matchR fuel b p' s' c' k)
  | .alt a b, prev, s, cap, k =>
    (matchR fuel a prev s cap k).orElse (fun _ => matchR fuel b prev s cap k)
  | .opt a, prev, s, cap, k =>
    (matchR fuel a prev s cap k).orElse (fun _ => k prev s cap)
  | .star a, prev, s, cap, k => starG (matchR fuel a) fuel prev s cap k
  | .starL a, prev, s, cap, k => starLz (matchR fuel a) fuel prev s cap k
  | .grp a, prev, s, cap, k =>
    matchR fuel a prev s cap (fun p' s' _ => k p' s' (some (s.take (s.length - s'.length))))
  | .bos, prev, s, cap, k => if prev.isNone then k prev s cap else none
  | .eos, prev, s, cap, k => if s.isEmpty then k prev s cap else none
  | .wb, prev, s, cap, k =>
    if isWordO prev != isWordO s.head? then k prev s cap else none

/-- Try a full match of `r` at the current position. -/
def tryAt (r : Re) (prev : Option Char) (s : List Char) :
    Option (List Char × Option (List Char)) :=
  matchR (s.length + 1) r prev s none (fun _ rest cap => some (rest, cap))

/-- Try the pattern at each position from the left; on success return
`(prefix, matched, rest, capture)`. -/
def searchR (r : Re) : Option Char → List Char → List Char →
    Option (List Char × List Char × List Char × Option (List Char))
  | prev, [], acc =>
    match tryAt r prev [] with
    | some (rest, cap) => some (acc.reverse, [], rest, cap)
    | none => none
  | prev, c :: t, acc =>
    match tryAt r prev (c :: t) with
    | some (rest, cap) =>
      some (acc.reverse, (c :: t).take ((c :: t).length - rest.length), rest, cap)
    | none => searchR r (some c) t (c :: acc)

/-- JS `String.replace` with a non-global regex: replace the first match. -/
def replaceFirst (r : Re) (rep : List Char) (s : List Char) : List Char :=
  match searchR r none s [] with
  | some (pre, _, rest, _) => pre ++ rep ++ rest
  | none => s

/-- JS `String.replace` with a `/g` regex.  Scanning resumes after each match
with the last matched character as `\b` context.  Every global pattern in the
source matches at least one character, so the empty-match case (where JS would
bump `lastIndex`) cannot occur; it conservatively stops. -/
def replaceAllAux : Nat → Re → List Char → Option Char → List Char → List Char
  | 0, _, _, _, s => s
  | f + 1, r, rep, prev, s =>
    match searchR r prev s [] with
    | none => s
    | some (pre, m, rest, _) =>
      match m.getLast? with
      | none => s
      | some c => pre ++ rep ++ replaceAllAux f r rep (some c) rest

/-- Replace every match of `r` in `s` by `rep`. -/
def replaceAll (r : Re) (rep : List Char) (s : List Char) : List Char :=
  replaceAllAux (s.length + 1) r rep none s

/-- JS `re.test(s)` / truthiness of `s.match(re)`. -/
def reTest (r : Re) (s : String) : Bool := (searchR r none s.data []).isSome

/-- The first capture group of the first match (`s.match(re)[1]`), when the
pattern matches. -/
def reCapture1 (r : Re) (s : String) : Option String :=
  match searchR r none s.data [] with
  | some (_, _, _, some c) => some ⟨c⟩
  | _ => none

/-- `s.split(re)[0]`: the text before the first match (the whole string when
there is none). -/
def splitHead (r : Re) (s : String) : String :=
  match searchR r none s.data [] with
  | some (pre, _, _, _) => ⟨pre⟩
  | none => s

/-! Pattern-building helpers: `lch`/`lstr` are case-insensitive literals
(all source patterns carry the `i` flag or run on lower-cased text), `rcat`
concatenates a list of nodes. -/

/-- A literal character under the `i` flag. -/
def lch (c : Char) : Re := .tok (fun x => x.toLower = c)

/-- A literal string under the `i` flag. -/
def lstr (s : String) : Re := s.data.foldr (fun c r => .seq (lch c) r) .eps

/-- Concatenation of a list of nodes. -/
def rcat (l : List Re) : Re := l.foldr .seq .eps

/-- JS `\s`. -/
def wsTok : Re := .tok Char.isWhitespace

/-- JS `.` (no `s` flag: anything but a line terminator). -/
def dotTok : Re := .tok (fun c => c ≠ '\n' && c ≠ '\r')

/-- JS `\d`. -/
def digitTok : Re := .tok Char.isDigit

/-- `[A-Z]` under the `i` flag. -/
def alphaTok : Re := .tok Char.isAlpha

/-- `[^,]`. -/
def notCommaTok : Re := .tok (fun c => c ≠ ',')

/-- `[,\s]`. -/
def commaWsTok : Re := .tok (fun c => c = ',' || c.isWhitespace)

/-- `[.,;]`. -/
def punctTok : Re := .tok (fun c => c = '.' || c = ',' || c = ';')

/-- `[#:]`. -/
def hashColonTok : Re := .tok (fun c => c = '#' || c = ':')

/-- Greedy `+`. -/
def rplus (a : Re) : Re := .seq a (.star a)

/-- Lazy `+?`. -/
def rplusL (a : Re) : Re := .seq a (.starL a)

/-- `\s*`. -/
def wsStar : Re := .star wsTok

/-- `\s+`. -/
def wsPlus : Re := rplus wsTok

/-- `.*`. -/
def dotStar : Re := .star dotTok

/-- `.*?`. -/
def dotStarL : Re := .starL dotTok

/-- `.+`. -/
def dotPlus : Re := rplus dotTok

/-- `.+?`. -/
def dotPlusL : Re := rplusL dotTok

/-- `\d{1,5}` (greedy). -/
def digit1to5 : Re :=
  .seq digitTok (.opt (.seq digitTok (.opt (.seq digitTok (.opt (.seq digitTok (.opt digitTok)))))))

/-- `\d{4}`. -/
def digit4 : Re := rcat [digitTok, digitTok, digitTok, digitTok]

/-- `\d{5}`. -/
def digit5 : Re := rcat [digitTok, digitTok, digitTok, digitTok, digitTok]

/-! ### The regular expressions of `getNormalizedName`, in source order -/

/-- `/,?\s*(?:at|located at)\s+.+$/i` -/
def reAt : Re := rcat [.opt (lch ','), wsStar, .alt (lstr "at") (lstr "located at"), wsPlus, dotPlus, .eos]

/-- `/,\s*\d{1,5}\s+[^,]+(?:street|st|avenue|ave|road|rd|drive|dr|lane|ln|way|blvd|boulevard).*$/i` -/
def reStreet : Re :=
  rcat [lch ',', wsStar, digit1to5, wsPlus, rplus notCommaTok,
    .alt (lstr "street") (.alt (lstr "st") (.alt (lstr "avenue") (.alt (lstr "ave")
      (.alt (lstr "road") (.alt (lstr "rd") (.alt (lstr "drive") (.alt (lstr "dr")
      (.alt (lstr "lane") (.alt (lstr "ln") (.alt (lstr "way") (.alt (lstr "blvd")
      (lstr "boulevard")))))))))))),
    dotStar, .eos]

/-- `/,\s*\d{5}(?:-\d{4})?(?:\s*,.*)?$/i` -/
def reZip : Re :=
  rcat [lch ',', wsStar, digit5, .opt (.seq (lch '-') digit4), .opt (rcat [wsStar, lch ',', dotStar]), .eos]

/-- `/,\s*(?:attn|attention)\s*[#:]?\s*\d+.*$/i` -/
def reAttn : Re :=
  rcat [lch ',', wsStar, .alt (lstr "attn") (lstr "attention"), wsStar, .opt hashColonTok,
    wsStar, rplus digitTok, dotStar, .eos]

/-- `/,\s*(?:[A-Z]{2}\s+\d{5}|[A-Z]{2})\s*$/i` -/
def reState : Re :=
  rcat [lch ',', wsStar,
    .alt (rcat [alphaTok, alphaTok, wsPlus, digit5]) (.seq alphaTok alphaTok),
    wsStar, .eos]

/-- `/,?\s*(?:its\s+)?successors\s+and\/or\s+assigns?.*$/i` -/
def reSuccAndOrAssigns : Re :=
  rcat [.opt (lch ','), wsStar, .opt (.seq (lstr "its") wsPlus), lstr "successors", wsPlus,
    lstr "and/or", wsPlus, lstr "assign", .opt (lch 's'), dotStar, .eos]

/-- `/,?\s*(?:its\s+)?successors\s+and\s+assigns?.*$/i` -/
def reSuccAndAssigns : Re :=
  rcat [.opt (lch ','), wsStar, .opt (.seq (lstr "its") wsPlus), lstr "successors", wsPlus,
    lstr "and", wsPlus, lstr "assign", .opt (lch 's'), dotStar, .eos]

/-- `/,?\s*and\/or\s+assigns?.*$/i` -/
def reAndOrAssigns : Re :=
  rcat [.opt (lch ','), wsStar, lstr "and/or", wsPlus, lstr "assign", .opt (lch 's'), dotStar, .eos]

/-- `/,?\s*and\s+assigns?.*$/i` -/
def reAndAssigns : Re :=
  rcat [.opt (lch ','), wsStar, lstr "and", wsPlus, lstr "assign", .opt (lch 's'), dotStar, .eos]

/-- `/,?\s*(?:its\s+)?successors.*$/i` -/
def reItsSuccessors : Re :=
  rcat [.opt (lch ','), wsStar, .opt (.seq (lstr "its") wsPlus), lstr "successors", dotStar, .eos]

/-- `/,?\s*(?:their\s+)?successors.*$/i` -/
def reTheirSuccessors : Re :=
  rcat [.opt (lch ','), wsStar, .opt (.seq (lstr "their") wsPlus), lstr "successors", dotStar, .eos]

/-- `/,?\s*successors\s+in\s+interest.*$/i` -/
def reSuccInterest : Re :=
  rcat [.opt (lch ','), wsStar, lstr "successors", wsPlus, lstr "in", wsPlus, lstr "interest",
    dotStar, .eos]

/-- `/,?\s*(?:their\s+)?legal\s+representatives.*$/i` -/
def reLegalReps : Re :=
  rcat [.opt (lch ','), wsStar, .opt (.seq (lstr "their") wsPlus), lstr "legal", wsPlus,
    lstr "representatives", dotStar, .eos]

/-- `/,?\s*by\s+and\s+through\s+its\s+attorney-in-fact.*$/i` -/
def reByThroughAif : Re :=
  rcat [.opt (lch ','), wsStar, lstr "by", wsPlus, lstr "and", wsPlus, lstr "through", wsPlus,
    lstr "its", wsPlus, lstr "attorney-in-fact", dotStar, .eos]

/-- `/,?\s*acting\s+through.*$/i` -/
def reActingThrough : Re :=
  rcat [.opt (lch ','), wsStar, lstr "acting", wsPlus, lstr "through", dotStar, .eos]

/-- `/,?\s*as\s+attorney-in-fact\s+for.*$/i` -/
def reAsAifFor : Re :=
  rcat [.opt (lch ','), wsStar, lstr "as", wsPlus, lstr "attorney-in-fact", wsPlus, lstr "for",
    dotStar, .eos]

/-- `/,?\s*doing\s+business\s+as.*$/i` -/
def reDoingBusiness : Re :=
  rcat [.opt (lch ','), wsStar, lstr "doing", wsPlus, lstr "business", wsPlus, lstr "as",
    dotStar, .eos]

/-- `/,?\s*d\/b\/a.*$/i` -/
def reDba : Re := rcat [.opt (lch ','), wsStar, lstr "d/b/a", dotStar, .eos]

/-- `/,?\s*solely\s+as\s+nominee.*$/i` -/
def reSolelyNominee : Re :=
  rcat [.opt (lch ','), wsStar, lstr "solely", wsPlus, lstr "as", wsPlus, lstr "nominee",
    dotStar, .eos]

/-- `/,?\s*as\s+trustee\s+for.*$/i` -/
def reAsTrusteeFor : Re :=
  rcat [.opt (lch ','), wsStar, lstr "as", wsPlus, lstr "trustee", wsPlus, lstr "for",
    dotStar, .eos]

/-- `/,?\s*as\s+nominee\s+for.*$/i` -/
def reAsNomineeFor : Re :=
  rcat [.opt (lch ','), wsStar, lstr "as", wsPlus, lstr "nominee", wsPlus, lstr "for",
    dotStar, .eos]

/-- `/\bn\.?a\.?/gi` -/
def reNa : Re := rcat [.wb, lch 'n', .opt (lch '.'), lch 'a', .opt (lch '.')]

/-- `/\bcorp\.?/gi` -/
def reCorp : Re := rcat [.wb, lstr "corp", .opt (lch '.')]

/-- `/\bllc\.?/gi` -/
def reLlc : Re := rcat [.wb, lstr "llc", .opt (lch '.')]

/-- `/\binc\.?/gi` -/
def reInc : Re := rcat [.wb, lstr "inc", .opt (lch '.')]

/-- `/\bltd\.?/gi` -/
def reLtd : Re := rcat [.wb, lstr "ltd", .opt (lch '.')]

/-- `/\bl\.?p\.?/gi` -/
def reLp : Re := rcat [.wb, lch 'l', .opt (lch '.'), lch 'p', .opt (lch '.')]

/-- `/\bco\.?$/gi` -/
def reCo : Re := rcat [.wb, lstr "co", .opt (lch '.'), .eos]

/-- `/\s+/g` -/
def reWs : Re := wsPlus

/-- `/[.,;]+$/` -/
def rePunctEnd : Re := .seq (rplus punctTok) .eos

/-- `/^[,\s]+|[,\s]+$/g` -/
def reEdges : Re := .alt (.seq .bos (rplus commaWsTok)) (.seq (rplus commaWsTok) .eos)

/-- The replacement pipeline of `getNormalizedName`, in source order:
`(pattern, replacement, global?)`. -/
def normalizationRules : List (Re × String × Bool) :=
  [ (reAt, "", false), (reStreet, "", false), (reZip, "", false), (reAttn, "", false),
    (reState, "", false),
    (reSuccAndOrAssigns, "", false), (reSuccAndAssigns, "", false), (reAndOrAssigns, "", false),
    (reAndAssigns, "", false), (reItsSuccessors, "", false), (reTheirSuccessors, "", false),
    (reSuccInterest, "", false), (reLegalReps, "", false), (reByThroughAif, "", false),
    (reActingThrough, "", false), (reAsAifFor, "", false), (reDoingBusiness, "", false),
    (reDba, "", false), (reSolelyNominee, "", false), (reAsTrusteeFor, "", false),
    (reAsNomineeFor, "", false),
    (reNa, "na", true), (reCorp, "corporation", true), (reLlc, "llc", true),
    (reInc, "incorporated", true), (reLtd, "limited", true), (reLp, "lp", true),
    (reCo, "company", true),
    (reWs, " ", true), (rePunctEnd, "", false), (reEdges, "", true) ]

/-! ### Role-resolver patterns -/

/-- The closing part `(?:,\s*(?:its\s+successors|and\s+assigns|located|at\s+\d)|\s*$)` shared
by the three `extractMERSPrincipal` patterns. -/
def reMersEnd : Re :=
  .alt
    (rcat [lch ',', wsStar,
      .alt (rcat [lstr "its", wsPlus, lstr "successors"])
        (.alt (rcat [lstr "and", wsPlus, lstr "assigns"])
          (.alt (lstr "located") (rcat [lstr "at", wsPlus, digitTok])))])
    (.seq wsStar .eos)

/-- `/mers.*?(?:as\s+|solely\s+as\s+)?nominee\s+for\s+(.+?)(?:…)/i` -/
def reMers1 : Re :=
  rcat [lstr "mers", dotStarL,
    .opt (.alt (.seq (lstr "as") wsPlus) (rcat [lstr "solely", wsPlus, lstr "as", wsPlus])),
    lstr "nominee", wsPlus, lstr "for", wsPlus, .grp dotPlusL, reMersEnd]

/-- `/mers,?\s*solely\s+as\s+nominee\s+for\s+(.+?)(?:…)/i` -/
def reMers2 : Re :=
  rcat [lstr "mers", .opt (lch ','), wsStar, lstr "solely", wsPlus, lstr "as", wsPlus,
    lstr "nominee", wsPlus, lstr "for", wsPlus, .grp dotPlusL, reMersEnd]

/-- `/mortgage\s+electronic\s+registration\s+systems.*?as\s+nominee\s+for\s+(.+?)(?:…)/i` -/
def reMers3 : Re :=
  rcat [lstr "mortgage", wsPlus, lstr "electronic", wsPlus, lstr "registration", wsPlus,
    lstr "systems", dotStarL, lstr "as", wsPlus, lstr "nominee", wsPlus, lstr "for", wsPlus,
    .grp dotPlusL, reMersEnd]

/-- `/,?\s*its\s+successors.*$/i` (principal clean-up, first occurrence). -/
def reCleanSucc : Re :=
  rcat [.opt (lch ','), wsStar, lstr "its", wsPlus, lstr "successors", dotStar, .eos]

/-- `/,?\s*and\s+assigns.*$/i` (principal clean-up, first occurrence). -/
def reCleanAssigns : Re :=
  rcat [.opt (lch ','), wsStar, lstr "and", wsPlus, lstr "assigns", dotStar, .eos]

/-- `/mers.*as nominee for (.+?)(?:,|$)/` (run on lower-cased text). -/
def reMersNomineeSimple : Re :=
  rcat [lstr "mers", dotStar, lstr "as nominee for ", .grp dotPlusL, .alt (lch ',') .eos]

/-- `/attorney-in-fact for (.+?)(?:,|$)/i` -/
def rePoaFor : Re :=
  rcat [lstr "attorney-in-fact for ", .grp dotPlusL, .alt (lch ',') .eos]

/-- `/attorney-in-fact|aif|poa/i` (the `split` separator for the POA agent). -/
def rePoaSplit : Re := .alt (lstr "attorney-in-fact") (.alt (lstr "aif") (lstr "poa"))

/-! ### Role resolver and name normalizer -/

/-- Result of `analyzeMERSRole` when the party is a MERS entity (the source
returns `{isMERS: false}` otherwise, modelled as `none`).  `effectiveName` is
the extracted principal (`null` when no nominee clause resolves). -/
structure MersRole where
  originalName : String
  effectiveName : Option String
  deriving DecidableEq, Repr

/-- Result of `analyzePOARole` when the party carries a power-of-attorney
marker (`none` otherwise). -/
structure PoaRole where
  originalName : String
  effectiveName : Option String
  agent : String
  principal : Option String
  deriving DecidableEq, Repr

/-- `extractMERSPrincipal(name)`: the three nominee patterns tried in order;
a successful capture is trimmed and cleaned of successor/assigns tails. -/
def extractMERSPrincipal (name : Option String) : Option String :=
  if ¬ truthy name then none else
  let s := getS name
  let tryPat : Re → Option String := fun r =>
    match reCapture1 r s with
    | some cap =>
      if cap ≠ "" then
        some ⟨replaceFirst reCleanAssigns [] (replaceFirst reCleanSucc [] (jsTrim cap).data)⟩
      else none
    | none => none
  (tryPat reMers1).orElse (fun _ => (tryPat reMers2).orElse (fun _ => tryPat reMers3))

/-- `analyzeMERSRole(partyName)`. -/
def analyzeMERSRole (partyName : Option String) : Option MersRole :=
  if ¬ truthy partyName then none else
  let p := getS partyName
  let lowerName := jsLower p
  if jsIncludes lowerName "mers" || jsIncludes lowerName "mortgage electronic registration" then
    some ⟨p, extractMERSPrincipal (some p)⟩
  else none

/-- `analyzePOARole(partyName, principalName)`. -/
def analyzePOARole (partyName declaredPrincipal : Option String) : Option PoaRole :=
  if ¬ truthy partyName then none else
  let p := getS partyName
  let lowerName := jsLower p
  if jsIncludes lowerName "attorney-in-fact" || jsIncludes lowerName "attorney in fact" ||
      jsIncludes lowerName " aif " || jsIncludes lowerName " poa " then
    let extractedPrincipal :=
      if truthy declaredPrincipal then declaredPrincipal
      else
        match reCapture1 rePoaFor p with
        | some cap => some (jsTrim cap)
        | none => declaredPrincipal
    some ⟨p, extractedPrincipal, jsTrim (splitHead rePoaSplit p), extractedPrincipal⟩
  else none

/-- `getNormalizedName(name)`: unwind a MERS nominee to its principal, then
lower-case and run the replacement pipeline, then trim. -/
def getNormalizedName (name : Option String) : String :=
  if ¬ truthy name then "" else
  let base :=
    match analyzeMERSRole name with
    | some mi => if truthy mi.effectiveName then getS mi.effectiveName else getS name
    | none => getS name
  let chars := normalizationRules.foldl
    (fun s rule =>
      if rule.2.2 then replaceAll rule.1 rule.2.1.data s
      else replaceFirst rule.1 rule.2.1.data s)
    (jsLower base).data
  jsTrim ⟨chars⟩

/-- `extractMERSNominee(partyName)`: the simple "as nominee for" capture on the
lower-cased text. -/
def extractMERSNominee (partyName : Option String) : Option String :=
  if ¬ truthy partyName then none else
  let lower := jsLower (getS partyName)
  (reCapture1 reMersNomineeSimple lower).map jsTrim

/-- `advancedNameMatch(name1, name2)`: normalized equality, then fuzzy
similarity at the 0.85 threshold, then substring containment for names of
length at least 5. -/
def advancedNameMatch (name1 name2 : Option String) : Bool :=
  if ¬ truthy name1 ∨ ¬ truthy name2 then false else
  let norm1 := getNormalizedName name1
  let norm2 := getNormalizedName name2
  if norm1 = norm2 then true
  else if calculateSimilarity (some norm1) (some norm2) ≥ 0.85 then true
  else if jsIncludes norm1 norm2 || jsIncludes norm2 norm1 then
    let shorter := if norm1.length < norm2.length then norm1 else norm2
    decide (5 ≤ shorter.length)
  else false

/-- `isMERSNominee(assignorName, originalLender)`. -/
def isMERSNominee (assignorName originalLender : Option String) : Bool :=
  if ¬ truthy assignorName ∨ ¬ truthy originalLender then false else
  match extractMERSNominee assignorName with
  | some nominee =>
    if nominee ≠ "" then
      advancedNameMatch (some (getNormalizedName (some nominee)))
        (some (getNormalizedName originalLender))
    else false
  | none => false

/-! ### Data model: raw assignment records and validation results -/

/-- A raw assignment record as consumed by the resolver (the fields of the
objects built by `parseAssignmentText` / delivered by extraction, both the
current `*_name`/`*_date` fields and their legacy aliases).  Dates are the ISO
`YYYY-MM-DD` strings produced by `parseDate`. -/
structure RawRecord where
  assignor_name : Option String := none
  assignee_name : Option String := none
  assignor : Option String := none
  assignee : Option String := none
  execution_date : Option String := none
  assignmentDate : Option String := none
  recording_date : Option String := none
  recordingDate : Option String := none
  instrument_number : Option String := none
  power_of_attorney_indicator : Bool := false
  principal_name : Option String := none
  poa_agent : Option String := none
  poa_principal : Option String := none
  chunkIndex : Option Nat := none
  deriving DecidableEq, Repr

/-- JS `a || n` for the numeric `chunkIndex` field (`0` is falsy). -/
def jsOrNat (a : Option Nat) (b : Nat) : Nat :=
  match a with
  | some n => if n = 0 then b else n
  | none => b

/-- JS `s || o` where the left operand is a plain string. -/
def strOr (s : String) (b : Option String) : Option String :=
  if s = "" then b else some s

/-! ### Chronological sequencer -/

/-- Character comparison by code point. -/
def charCmp (a b : Char) : Ordering := compare a.toNat b.toNat

/-- Lexicographic comparison of character lists. -/
def listCmp : List Char → List Char → Ordering
  | [], [] => .eq
  | [], _ :: _ => .lt
  | _ :: _, [] => .gt
  | a :: as, b :: bs =>
    match charCmp a b with
    | .eq => listCmp as bs
    | o => o

/-- Lexicographic string comparison; on the ISO date strings produced by
`parseDate` this is exactly the `Date.getTime()` order used by the sort
comparator. -/
def strCmp (a b : String) : Ordering := listCmp a.data b.data

/-- `a.execution_date || a.assignmentDate`, with the comparator's sentinel
`new Date('1900-01-01')` for records without either date. -/
def execKey (a : RawRecord) : String :=
  jsGetD (jsOr a.execution_date a.assignmentDate) "1900-01-01"

/-- `a.recording_date || a.recordingDate`, defaulting to the (possibly
sentinel) execution key, as in `parsedRecordA`. -/
def recKey (a : RawRecord) : String :=
  jsGetD (jsOr a.recording_date a.recordingDate) (execKey a)

/-- The sort comparator of `orderAssignmentsChronologically`: execution date
first, recording date as tie break. -/
def cmpRec (a b : RawRecord) : Ordering :=
  match strCmp (execKey a) (execKey b) with
  | .eq => strCmp (recKey a) (recKey b)
  | o => o

/-- Stable insertion of a record into an already sorted list: `a` goes before
the first element not strictly smaller than it. -/
def insertRec (a : RawRecord) : List RawRecord → List RawRecord
  | [] => [a]
  | b :: l => if cmpRec a b = .gt then b :: insertRec a l else a :: b :: l

/-- `orderAssignmentsChronologically(assignments)`: `Array.prototype.sort`
with the date comparator, modelled as a stable sort (guaranteed by
ECMAScript 2019). -/
def orderAssignmentsChronologically : List RawRecord → List RawRecord
  | [] => []
  | a :: l => insertRec a (orderAssignmentsChronologically l)

/-! ### Confidence scorer -/

/-- `calculateAssignmentConfidence(assignment)`. -/
def calculateAssignmentConfidence (a : RawRecord) : Rat :=
  let confidence : Rat := 1.0
  let confidence := if ¬ truthy a.execution_date ∧ ¬ truthy a.assignmentDate then
    confidence - 0.2 else confidence
  let confidence := if ¬ truthy a.recording_date ∧ ¬ truthy a.recordingDate then
    confidence - 0.1 else confidence
  let confidence := if ¬ truthy a.instrument_number then confidence - 0.1 else confidence
  let confidence := if ¬ truthy a.assignor_name ∧ ¬ truthy a.assignor then
    confidence - 0.3 else confidence
  let confidence := if ¬ truthy a.assignee_name ∧ ¬ truthy a.assignee then
    confidence - 0.3 else confidence
  max 0.1 confidence

/-! ### Chain validator -/

/-- The issues accumulated by `validateAssignmentChain`, one constructor per
`issues.push` site, carrying exactly the data interpolated into the message
string. -/
inductive Issue where
  | originalLenderMissing
  | firstLinkBreakMers (lender firstAssignor mersEffective : Option String)
  | firstLinkBreak (lender firstAssignor : Option String)
  | chainBreak (assignee nextAssignor : Option String) (confidencePct : Int)
  | missingAssignorName (idx : Nat)
  | missingAssigneeName (idx : Nat)
  | missingExecutionDate (idx : Nat)
  | unresolvedPOA (idx : Nat)
  | lowConfidence (idx : Nat) (pct : Int)
  deriving DecidableEq, Repr

/-- An enhanced assignment (the element of `enhancedAssignments`): the raw
record spread together with the audit, normalization, effective-party, role,
confidence and source fields added by the enhancement map. -/
structure Enhanced where
  base : RawRecord
  assignor_original : Option String
  assignee_original : Option String
  assignor_normalized : String
  assignee_normalized : String
  effectiveAssignor : Option String
  effectiveAssignee : Option String
  assignor_mers_info : Option MersRole
  assignee_mers_info : Option MersRole
  mers_flag : Bool
  assignor_poa_info : Option PoaRole
  assignee_poa_info : Option PoaRole
  poa_info : Option PoaRole
  poa_agent : Option String
  poa_principal : Option String
  confidence_score : Rat
  source_page : Nat
  deriving DecidableEq, Repr

/-- The `effectiveName` of an optional MERS role (`mersInfo?.effectiveName`). -/
def mersEff : Option MersRole → Option String
  | some mi => mi.effectiveName
  | none => none

/-- The `effectiveName` of an optional POA role. -/
def poaEff : Option PoaRole → Option String
  | some pi => pi.effectiveName
  | none => none

/-- The `principal` of an optional POA role (`poa_info?.principal`). -/
def poaPrin : Option PoaRole → Option String
  | some pi => pi.principal
  | none => none

/-- The per-record enhancement step of `validateAssignmentChain` (the body of
the `orderedAssignments.map` at its start), computing effective parties from
the MERS/POA role analyses. -/
def enhanceAssignment (originalLender : Option String) (index : Nat) (a : RawRecord) :
    Enhanced :=
  let assignorOriginal := jsOr a.assignor_name a.assignor
  let assigneeOriginal := jsOr a.assignee_name a.assignee
  let assignorMersInfo := analyzeMERSRole assignorOriginal
  let assigneeMersInfo := analyzeMERSRole assigneeOriginal
  let assignorPOAInfo := analyzePOARole assignorOriginal (jsOr a.principal_name a.poa_principal)
  let assigneePOAInfo := analyzePOARole assigneeOriginal (jsOr a.principal_name a.poa_principal)
  let effectiveAssignor :=
    if assignorMersInfo.isSome ∧ truthy (mersEff assignorMersInfo) then mersEff assignorMersInfo
    else if assignorPOAInfo.isSome ∧ truthy (poaEff assignorPOAInfo) then poaEff assignorPOAInfo
    else if truthy a.poa_principal ∧ truthy assignorOriginal ∧
        jsIncludes (jsLower (getS assignorOriginal)) "attorney" then a.poa_principal
    else assignorOriginal
  let effectiveAssignee :=
    if assigneeMersInfo.isSome then
      if truthy (mersEff assigneeMersInfo) then
        if jsIncludes (jsLower (getS (mersEff assigneeMersInfo))) "lender" ∧
            truthy originalLender then originalLender
        else mersEff assigneeMersInfo
      else jsOr originalLender assigneeOriginal
    else if assigneePOAInfo.isSome ∧ truthy (poaEff assigneePOAInfo) then poaEff assigneePOAInfo
    else if truthy a.poa_principal ∧ truthy assigneeOriginal ∧
        jsIncludes (jsLower (getS assigneeOriginal)) "attorney" then a.poa_principal
    else assigneeOriginal
  { base := a
    assignor_original := assignorOriginal
    assignee_original := assigneeOriginal
    assignor_normalized := getNormalizedName effectiveAssignor
    assignee_normalized := getNormalizedName effectiveAssignee
    effectiveAssignor := effectiveAssignor
    effectiveAssignee := effectiveAssignee
    assignor_mers_info := assignorMersInfo
    assignee_mers_info := assigneeMersInfo
    mers_flag := assignorMersInfo.isSome || assigneeMersInfo.isSome
    assignor_poa_info := assignorPOAInfo
    assignee_poa_info := assigneePOAInfo
    poa_info := if assignorPOAInfo.isSome then assignorPOAInfo else assigneePOAInfo
    poa_agent := jsOr a.poa_agent none
    poa_principal := jsOr a.poa_principal none
    confidence_score := calculateAssignmentConfidence a
    source_page := jsOrNat a.chunkIndex (index + 1) }

/-- `checkMERSPassthrough(currentAssignment, nextAssignment)`. -/
def checkMERSPassthrough (cur next : Enhanced) : Bool :=
  if cur.assignee_mers_info.isSome ∧ truthy (mersEff cur.assignee_mers_info) then
    advancedNameMatch (some (getNormalizedName (mersEff cur.assignee_mers_info)))
      (some (getNormalizedName (strOr next.assignor_normalized next.assignor_original)))
  else if next.assignor_mers_info.isSome ∧ truthy (mersEff next.assignor_mers_info) then
    advancedNameMatch (some (getNormalizedName (strOr cur.assignee_normalized cur.assignee_original)))
      (some (getNormalizedName (mersEff next.assignor_mers_info)))
  else false

/-- `validateAssignmentData(assignment, index, issues)`: the data-completeness
issues contributed by one link (appended in source order). -/
def dataIssues (e : Enhanced) (index : Nat) : List Issue :=
  (if ¬ truthy e.assignor_original ∧ ¬ truthy e.base.assignor_name ∧ ¬ truthy e.base.assignor
    then [Issue.missingAssignorName index] else []) ++
  (if ¬ truthy e.assignee_original ∧ ¬ truthy e.base.assignee_name ∧ ¬ truthy e.base.assignee
    then [Issue.missingAssigneeName index] else []) ++
  (if ¬ truthy e.base.execution_date ∧ ¬ truthy e.base.assignmentDate
    then [Issue.missingExecutionDate index] else []) ++
  (if e.base.power_of_attorney_indicator ∧ ¬ truthy e.base.principal_name ∧
      ¬ truthy (poaPrin e.poa_info)
    then [Issue.unresolvedPOA index] else []) ++
  (if e.confidence_score < 0.7
    then [Issue.lowConfidence index (jsRound (e.confidence_score * 100))] else [])

/-- The party used for forward matching at a link:
`assignment.poa_principal || assignment.effectiveAssignee || assignment.assignee_normalized`. -/
def assigneeForMatching (e : Enhanced) : Option String :=
  jsOr e.poa_principal (jsOr e.effectiveAssignee (some e.assignee_normalized))

/-- The party used for backward matching at a link:
`assignment.poa_principal || assignment.effectiveAssignor || assignment.assignor_normalized`. -/
def assignorForMatching (e : Enhanced) : Option String :=
  jsOr e.poa_principal (jsOr e.effectiveAssignor (some e.assignor_normalized))

/-- The continuity check between consecutive links of the validation loop:
similarity at the 0.85 threshold, then POA pairing, then MERS passthrough;
a remaining mismatch appends a `chainBreak` issue and clears completeness. -/
def continuityStep (e nxt : Enhanced) (comp : Bool) (iss : List Issue) :
    Bool × List Issue :=
  let cur := assigneeForMatching e
  let nxtA := assignorForMatching nxt
  if truthy cur ∧ truthy nxtA then
    let matchConfidence := calculateSimilarity cur nxtA
    if matchConfidence ≥ 0.85 then (comp, iss)
    else
      let isPOAMatch := (truthy e.poa_agent ∧ truthy nxt.poa_principal) ∨
        (truthy e.poa_principal ∧ truthy nxt.poa_agent)
      if isPOAMatch then (comp, iss)
      else if checkMERSPassthrough e nxt then (comp, iss)
      else (false, iss ++ [Issue.chainBreak cur nxtA (jsRound (matchConfidence * 100))])
  else (comp, iss)

/-- The validation loop over the enhanced links (`for i in 0..n-1`): update
the current owner, run the continuity check against the next link, then the
per-link data-completeness checks. -/
def walk : List Enhanced → Nat → Option String → Bool → List Issue →
    Option String × Bool × List Issue
  | [], _, owner, comp, iss => (owner, comp, iss)
  | e :: rest, idx, owner, comp, iss =>
    let effectiveAssignee := assigneeForMatching e
    let owner2 := if truthy effectiveAssignee then effectiveAssignee else owner
    let step : Bool × List Issue :=
      match rest with
      | [] => (comp, iss)
      | nxt :: _ => continuityStep e nxt comp iss
    walk rest (idx + 1) owner2 step.1 (step.2 ++ dataIssues e idx)

/-- The externally visible result of `validateAssignmentChain`.  When the
record list is empty the source returns an object without the
`enhancedAssignments` key; this is modelled as the empty list. -/
structure ChainValidationResult where
  isComplete : Bool
  currentOwner : Option String
  issues : Option (List Issue)
  enhancedAssignments : List Enhanced
  deriving DecidableEq, Repr

/-- The check of the first assignment against the original lender (including
the below-threshold MERS-nominee-of-original-lender special case). -/
def firstLinkCheck (originalLender : Option String) (firstAssignment : Enhanced)
    (comp : Bool) (iss : List Issue) : Bool × List Issue :=
  if truthy originalLender then
    let normalizedOriginal := getNormalizedName originalLender
    let firstAssignorForMatching := assignorForMatching firstAssignment
    let firstAssignorMatches :=
      advancedNameMatch (some normalizedOriginal) firstAssignorForMatching ||
      isMERSNominee firstAssignment.effectiveAssignor originalLender
    if firstAssignorMatches then (comp, iss)
    else
      if firstAssignment.assignor_mers_info.isSome ∧
          truthy (mersEff firstAssignment.assignor_mers_info) then
        if advancedNameMatch (some normalizedOriginal)
            (some (getNormalizedName (mersEff firstAssignment.assignor_mers_info))) then
          (comp, iss)
        else
          (false, iss ++ [Issue.firstLinkBreakMers originalLender firstAssignorForMatching
            (mersEff firstAssignment.assignor_mers_info)])
      else (false, iss ++ [Issue.firstLinkBreak originalLender firstAssignorForMatching])
  else (comp, iss)

/-- `validateAssignmentChain(originalLender, orderedAssignments)`.  The
sequential mutation of `issues` / `isComplete` in the source is threaded as
pairs. -/
def validateAssignmentChain (originalLender : Option String)
    (orderedAssignments : List RawRecord) : ChainValidationResult :=
  let startIssues : List Issue :=
    if ¬ truthy originalLender then [Issue.originalLenderMissing] else []
  let startComplete : Bool := if ¬ truthy originalLender then false else true
  match orderedAssignments with
  | [] =>
    { isComplete := truthy originalLender
      currentOwner := originalLender
      issues := if startIssues = [] then none else some startIssues
      enhancedAssignments := [] }
  | _ :: _ =>
    let enhanced := orderedAssignments.enum.map
      (fun p => enhanceAssignment originalLender p.1 p.2)
    let afterFirst : Bool × List Issue :=
      match enhanced.head? with
      | some firstAssignment =>
        firstLinkCheck originalLender firstAssignment startComplete startIssues
      | none => (startComplete, startIssues)
    let w := walk enhanced 1 originalLender afterFirst.1 afterFirst.2
    { isComplete := w.2.1
      currentOwner := w.1
      issues := if w.2.2 = [] then none else some w.2.2
      enhancedAssignments := enhanced }

/-- The issue list of a result (`[]` when the source returned `null`). -/
def resultIssues (r : ChainValidationResult) : List Issue := r.issues.getD []

/-! ### Claim C2: empty input -/

/-- C2 counterexample: with no original lender and an empty record list,
`validateAssignmentChain` does **not** return an unknown completeness and an
empty issue list — it returns `isComplete = false` together with the
missing-original-lender issue (completeness is a plain boolean in the code, so
no "unknown" value exists). -/
theorem claim2_counterexample :
    (validateAssignmentChain none []).isComplete = false ∧
    (validateAssignmentChain none []).issues = some [Issue.originalLenderMissing] := by
  decide

/-- C2 (amended): with no original lender and an empty record list, the result
is completeness `false`, current owner `null`, and exactly the single
missing-original-lender issue. -/
theorem claim2_amended :
    validateAssignmentChain none [] =
      { isComplete := false
        currentOwner := none
        issues := some [Issue.originalLenderMissing]
        enhancedAssignments := [] } := by
  decide

/-! ### Claim C3: normalizer idempotence -/

/-- C3: the name normalizer is **not** idempotent.  Normalizing `"corp"` gives
`"corporation"`, but the corporate-suffix rule `\bcorp\.?` matches inside its
own canonical output, so a second pass yields `"corporationoration"` — the
code contradicts the documented canonicalization intent of the rule. -/
theorem claim3_not_idempotent :
    getNormalizedName (some "corp") = "corporation" ∧
    getNormalizedName (some (getNormalizedName (some "corp"))) = "corporationoration" ∧
    getNormalizedName (some (getNormalizedName (some "corp"))) ≠
      getNormalizedName (some "corp") := by
  decide

/-! ### Claim C7: known-successor match -/

unseal Rat.add Rat.sub Rat.mul Rat.inv Rat.ofScientific in
/-- C7: `"Countrywide Home Loans, Inc."` normalizes to the successor-table key
`"countrywide home loans, incorporated"`, `"Bank of America, N.A."` to its
value `"bank of america, na"`, so the matcher's similarity on the normalized
pair is 1 via the lookup table — at least the 0.85 threshold — and
`advancedNameMatch` accepts the raw pair. -/
theorem claim7_successor_match :
    getNormalizedName (some "Countrywide Home Loans, Inc.") =
      "countrywide home loans, incorporated" ∧
    getNormalizedName (some "Bank of America, N.A.") = "bank of america, na" ∧
    succLookup (getNormalizedName (some "Countrywide Home Loans, Inc.")) =
      some (getNormalizedName (some "Bank of America, N.A.")) ∧
    calculateSimilarity (some (getNormalizedName (some "Countrywide Home Loans, Inc.")))
      (some (getNormalizedName (some "Bank of America, N.A."))) = 1 ∧
    (0.85 : Rat) ≤ 1 ∧
    advancedNameMatch (some "Countrywide Home Loans, Inc.") (some "Bank of America, N.A.") =
      true := by
  decide

/-! ### Claim C8: determinism -/

/-- C8: the resolution pipeline is deterministic — ordering followed by chain
validation is a pure function of the original-lender string and the record
list, so two runs on the same input are identical. -/
theorem claim8_deterministic (originalLender : Option String) (records : List RawRecord) :
    validateAssignmentChain originalLender (orderAssignmentsChronologically records) =
      validateAssignmentChain originalLender (orderAssignmentsChronologically records) :=
  rfl

/-! ### Claim C6: confidence scorer -/

unseal Rat.sub Rat.ofScientific in
/-- C6: `calculateAssignmentConfidence` starts at 1.0, deducts 0.2 for a
missing execution date, 0.1 for a missing recording date, 0.1 for a missing
instrument number, 0.3 for a missing assignor name and 0.3 for a missing
assignee name, floored at 0.1; a record missing everything scores exactly
0.1. -/
theorem claim6_confidence :
    (∀ a : RawRecord,
      calculateAssignmentConfidence a =
        max 0.1 (1.0
          - (if ¬ truthy a.execution_date ∧ ¬ truthy a.assignmentDate then (0.2 : Rat) else 0)
          - (if ¬ truthy a.recording_date ∧ ¬ truthy a.recordingDate then (0.1 : Rat) else 0)
          - (if ¬ truthy a.instrument_number then (0.1 : Rat) else 0)
          - (if ¬ truthy a.assignor_name ∧ ¬ truthy a.assignor then (0.3 : Rat) else 0)
          - (if ¬ truthy a.assignee_name ∧ ¬ truthy a.assignee then (0.3 : Rat) else 0))) ∧
    calculateAssignmentConfidence {} = 0.1 := by
  constructor
  · intro a
    simp only [calculateAssignmentConfidence]
    split_ifs <;> norm_num
  · decide

/-! ### Claim C1: POA versus MERS precedence -/

/-- A party text matching both the MERS-nominee pattern (effective name
`"Acme Bank, attorney-in-fact"`) and the POA pattern (declared principal
`"Beta Corp"`). -/
def poaMersRecord : RawRecord :=
  { assignor_name := some "MERS as nominee for Acme Bank, attorney-in-fact"
    principal_name := some "Beta Corp" }

set_option maxRecDepth 4000 in
unseal Rat.add Rat.sub Rat.mul Rat.inv Rat.ofScientific in
/-- C1 counterexample: on a party text that is both a MERS nominee (with a
resolvable effective name) and a POA agent (with a resolvable principal), the
chain validator's effective assignor is the MERS effective name, **not** the
POA principal — the MERS branch is tested first in the code. -/
theorem claim1_counterexample :
    poaEff (analyzePOARole (some "MERS as nominee for Acme Bank, attorney-in-fact")
      (some "Beta Corp")) = some "Beta Corp" ∧
    mersEff (analyzeMERSRole (some "MERS as nominee for Acme Bank, attorney-in-fact")) =
      some "Acme Bank, attorney-in-fact" ∧
    ((validateAssignmentChain (some "Old Lender") [poaMersRecord]).enhancedAssignments.map
      (·.effectiveAssignor)) = [some "Acme Bank, attorney-in-fact"] ∧
    ((validateAssignmentChain (some "Old Lender") [poaMersRecord]).enhancedAssignments.map
      (·.effectiveAssignor)) ≠ [some "Beta Corp"] := by
  decide

/-- C1 (amended): when a party text is a MERS nominee with a (truthy)
effective name, that MERS effective name is the effective assignor, taking
precedence over any POA principal; the POA principal is used only when no
MERS effective name resolves. -/
theorem claim1_amended (lender : Option String) (idx : Nat) (a : RawRecord) (m : MersRole)
    (hm : analyzeMERSRole (jsOr a.assignor_name a.assignor) = some m)
    (he : truthy m.effectiveName = true) :
    (enhanceAssignment lender idx a).effectiveAssignor = m.effectiveName := by
  simp [enhanceAssignment, hm, mersEff, he]

/-- C1 witness: the amended precedence rule evaluated on the dual-role
record. -/
theorem claim1_witness :
    (enhanceAssignment (some "Old Lender") 0 poaMersRecord).effectiveAssignor =
      some "Acme Bank, attorney-in-fact" :=
  claim1_amended (some "Old Lender") 0 poaMersRecord
    ⟨"MERS as nominee for Acme Bank, attorney-in-fact", some "Acme Bank, attorney-in-fact"⟩
    (by decide) (by decide)

/-! ### Claim C9: unresolved MERS nominee fallback -/

/-- A record whose assignor and assignee are both the bare string `"MERS"`
(a MERS entity with no nominee clause). -/
def bareMersRecord : RawRecord :=
  { assignor_name := some "MERS", assignee_name := some "MERS" }

set_option maxRecDepth 4000 in
unseal Rat.add Rat.sub Rat.mul Rat.inv Rat.ofScientific in
/-- C9 counterexample: for a MERS party with no resolvable nominee clause the
validator falls back to the original lender **only on the assignee side**; on
the assignor side the raw party text is kept, refuting the claim that both
sides fall back alike. -/
theorem claim9_counterexample :
    mersEff (analyzeMERSRole (some "MERS")) = none ∧
    ((validateAssignmentChain (some "Acme Bank") [bareMersRecord]).enhancedAssignments.map
      (fun e => (e.effectiveAssignor, e.effectiveAssignee))) =
      [(some "MERS", some "Acme Bank")] ∧
    (some "MERS" : Option String) ≠ some "Acme Bank" := by
  decide

/-- C9 (amended): when a party is a MERS entity whose nominee clause yields no
effective name, the effective assignee falls back to `originalLender ||
assigneeOriginal`, but the effective assignor keeps the raw party text (no
original-lender fallback on the assignor side). -/
theorem claim9_amended (lender : Option String) (idx : Nat) (a : RawRecord)
    (m m' : MersRole)
    (hmB : analyzeMERSRole (jsOr a.assignee_name a.assignee) = some m)
    (heB : truthy m.effectiveName = false)
    (hmA : analyzeMERSRole (jsOr a.assignor_name a.assignor) = some m')
    (heA : truthy m'.effectiveName = false)
    (hpoaA : ¬ ((analyzePOARole (jsOr a.assignor_name a.assignor)
        (jsOr a.principal_name a.poa_principal)).isSome ∧
      truthy (poaEff (analyzePOARole (jsOr a.assignor_name a.assignor)
        (jsOr a.principal_name a.poa_principal)))))
    (hctxA : ¬ (truthy a.poa_principal ∧ truthy (jsOr a.assignor_name a.assignor) ∧
      jsIncludes (jsLower (getS (jsOr a.assignor_name a.assignor))) "attorney")) :
    (enhanceAssignment lender idx a).effectiveAssignee =
      jsOr lender (jsOr a.assignee_name a.assignee) ∧
    (enhanceAssignment lender idx a).effectiveAssignor = jsOr a.assignor_name a.assignor := by
  constructor
  · simp [enhanceAssignment, hmB, mersEff, heB]
  · simp [enhanceAssignment, hmA, mersEff, heA, hpoaA, hctxA]

/-- C9 witness: the amended fallback rule evaluated on the bare-MERS
record. -/
theorem claim9_witness :
    (enhanceAssignment (some "Acme Bank") 0 bareMersRecord).effectiveAssignee =
      jsOr (some "Acme Bank") (jsOr bareMersRecord.assignee_name bareMersRecord.assignee) ∧
    (enhanceAssignment (some "Acme Bank") 0 bareMersRecord).effectiveAssignor =
      jsOr bareMersRecord.assignor_name bareMersRecord.assignor :=
  claim9_amended (some "Acme Bank") 0 bareMersRecord ⟨"MERS", none⟩ ⟨"MERS", none⟩
    (by decide) (by decide) (by decide) (by decide) (by decide) (by decide)

/-! ### Claim C10: the banking-term similarity boost -/

/-- No pair of names related by the successor table shares two or more banking
terms, so the successor branch and the boost branch of `calculateSimilarity`
are mutually exclusive. -/
theorem knownSuccessors_commonTerms_lt_two :
    ∀ p ∈ getKnownSuccessors, commonTermCount p.1 p.2 < 2 ∧ commonTermCount p.2 p.1 < 2 := by
  decide

/-- A successful `successors[k]` lookup means `(k, v)` is literally a row of
the table. -/
theorem succLookup_mem {k v : String} (h : succLookup k = some v) :
    (k, v) ∈ getKnownSuccessors := by
  unfold succLookup at h
  cases hf : getKnownSuccessors.find? (fun p => p.1 = k) with
  | none => rw [hf] at h; simp at h
  | some p =>
    rw [hf] at h
    simp only [Option.map] at h
    have hm := List.mem_of_find?_eq_some hf
    have hp := List.find?_some hf
    simp only [decide_eq_true_eq] at hp
    have hv : p.2 = v := by simpa using h
    rw [← hp, ← hv, Prod.mk.eta]
    exact hm

/-- C10: for non-empty strings whose edit-distance similarity is at least 0.7
and whose lower-cased trimmed forms share at least two banking terms,
`calculateSimilarity` returns the edit similarity plus the undocumented 0.1
boost, capped at 1 (the successor branch cannot fire for such a pair). -/
theorem claim10_boost (s1 s2 : String) (h1 : s1 ≠ "") (h2 : s2 ≠ "")
    (hsim : editSimilarity s1 s2 ≥ 0.7)
    (hterms : 2 ≤ commonTermCount (jsTrim (jsLower s1)) (jsTrim (jsLower s2))) :
    calculateSimilarity (some s1) (some s2) = min 1 (editSimilarity s1 s2 + 0.1) := by
  have ht1 : truthy (some s1) = true := by simpa [truthy] using h1
  have ht2 : truthy (some s2) = true := by simpa [truthy] using h2
  have strlen : ∀ s : String, s ≠ "" → s.length ≠ 0 := by
    intro s hs
    cases s with
    | mk d =>
      cases d with
      | nil => exact absurd rfl hs
      | cons c t => simp [String.length]
  have hguard : ¬ (¬ truthy (some s1) = true ∨ ¬ truthy (some s2) = true) := by
    simp [ht1, ht2]
  have hsucc : ¬ (succLookup (jsTrim (jsLower s1)) = some (jsTrim (jsLower s2)) ∨
      succLookup (jsTrim (jsLower s2)) = some (jsTrim (jsLower s1))) := by
    rintro (hsu | hsu)
    · have := (knownSuccessors_commonTerms_lt_two _ (succLookup_mem hsu)).1
      simp only [commonTermCount] at this hterms
      omega
    · have := (knownSuccessors_commonTerms_lt_two _ (succLookup_mem hsu)).2
      simp only [commonTermCount] at this hterms
      omega
  have hlen : ¬ ((if s1.length > s2.length then s1 else s2).length = 0) := by
    split
    · exact strlen s1 h1
    · exact strlen s2 h2
  simp only [calculateSimilarity, getS]
  rw [if_neg hguard, if_neg hsucc, if_neg hlen, if_pos (And.intro hsim hterms)]

unseal Rat.add Rat.sub Rat.mul Rat.inv Rat.ofScientific in
/-- C10 witness: the boost applied to a concrete close pair of banking
names. -/
theorem claim10_witness :
    ("acme bank mortgage" : String) ≠ "" ∧ ("acmo bank mortgage" : String) ≠ "" ∧
    editSimilarity "acme bank mortgage" "acmo bank mortgage" ≥ 0.7 ∧
    2 ≤ commonTermCount (jsTrim (jsLower "acme bank mortgage"))
      (jsTrim (jsLower "acmo bank mortgage")) ∧
    calculateSimilarity (some "acme bank mortgage") (some "acmo bank mortgage") =
      min 1 (editSimilarity "acme bank mortgage" "acmo bank mortgage" + 0.1) :=
  ⟨by decide, by decide, by decide, by decide,
    claim10_boost "acme bank mortgage" "acmo bank mortgage"
      (by decide) (by decide) (by decide) (by decide)⟩

/-! ### Claim C5: fail-soft chain-break reporting -/

/-- The chain-break issue the continuity check would record between two
links. -/
def breakIssue (e nxt : Enhanced) : Issue :=
  Issue.chainBreak (assigneeForMatching e) (assignorForMatching nxt)
    (jsRound (calculateSimilarity (assigneeForMatching e) (assignorForMatching nxt) * 100))

/-- The continuity check either leaves its state alone or appends exactly the
chain-break issue and clears completeness. -/
theorem continuityStep_cases (e nxt : Enhanced) (comp : Bool) (iss : List Issue) :
    continuityStep e nxt comp iss = (comp, iss) ∨
    continuityStep e nxt comp iss = (false, iss ++ [breakIssue e nxt]) := by
  simp only [continuityStep, breakIssue]
  split_ifs <;> simp

/-- A junction that fails the continuity check on neutral state fails it on
every state, appending the chain-break issue. -/
theorem continuityStep_fail (e nxt : Enhanced)
    (hfail : (continuityStep e nxt true []).1 = false) (comp : Bool) (iss : List Issue) :
    continuityStep e nxt comp iss = (false, iss ++ [breakIssue e nxt]) := by
  simp only [continuityStep, breakIssue] at hfail ⊢
  split_ifs at hfail ⊢ <;> simp_all


/-- One-step unfolding of the walk on a single remaining link. -/
theorem walk_cons_nil (e : Enhanced) (idx : Nat) (o : Option String) (comp : Bool)
    (iss : List Issue) :
    walk [e] idx o comp iss =
      ((if truthy (assigneeForMatching e) then assigneeForMatching e else o), comp,
        iss ++ dataIssues e idx) := rfl

/-- One-step unfolding of the walk on at least two remaining links. -/
theorem walk_cons_cons (e nxt : Enhanced) (rest2 : List Enhanced) (idx : Nat)
    (o : Option String) (comp : Bool) (iss : List Issue) :
    walk (e :: nxt :: rest2) idx o comp iss =
      walk (nxt :: rest2) (idx + 1)
        (if truthy (assigneeForMatching e) then assigneeForMatching e else o)
        (continuityStep e nxt comp iss).1
        ((continuityStep e nxt comp iss).2 ++ dataIssues e idx) := rfl

/-- Once the completeness flag is cleared the walk never restores it. -/
theorem walk_comp_false (l : List Enhanced) (idx : Nat) (o : Option String)
    (iss : List Issue) : (walk l idx o false iss).2.1 = false := by
  induction l generalizing idx o iss with
  | nil => simp [walk]
  | cons e rest ih =>
    cases rest with
    | nil => rw [walk_cons_nil]
    | cons nxt rest2 =>
      rw [walk_cons_cons]
      rcases continuityStep_cases e nxt false iss with h | h <;> rw [h] <;> exact ih _ _ _

/-- Issues already accumulated survive the rest of the walk. -/
theorem walk_issues_mono (l : List Enhanced) (idx : Nat) (o : Option String) (comp : Bool)
    (iss : List Issue) (x : Issue) (hx : x ∈ iss) : x ∈ (walk l idx o comp iss).2.2 := by
  induction l generalizing idx o comp iss with
  | nil => simpa [walk] using hx
  | cons e rest ih =>
    cases rest with
    | nil =>
      rw [walk_cons_nil]
      exact List.mem_append_left _ hx
    | cons nxt rest2 =>
      rw [walk_cons_cons]
      rcases continuityStep_cases e nxt comp iss with h | h <;> rw [h]
      · exact ih _ _ _ _ (List.mem_append_left _ hx)
      · exact ih _ _ _ _ (List.mem_append_left _ (List.mem_append_left _ hx))

/-- If some junction `i, i+1` of the walked list fails the continuity check,
the walk ends incomplete and its issue list contains that junction's
chain-break issue. -/
theorem walk_break (l : List Enhanced) (i : Nat) (e nxt : Enhanced)
    (he : l.get? i = some e) (hn : l.get? (i + 1) = some nxt)
    (hfail : (continuityStep e nxt true []).1 = false) (idx : Nat) (o : Option String)
    (comp : Bool) (iss : List Issue) :
    (walk l idx o comp iss).2.1 = false ∧ breakIssue e nxt ∈ (walk l idx o comp iss).2.2 := by
  induction l generalizing i idx o comp iss with
  | nil => simp at he
  | cons a rest ih =>
    cases i with
    | zero =>
      cases rest with
      | nil => simp at hn
      | cons b rest2 =>
        have hae : a = e := by simpa using he
        have hbn : b = nxt := by simpa using hn
        rw [hae, hbn, walk_cons_cons, continuityStep_fail e nxt hfail comp iss]
        refine ⟨walk_comp_false _ _ _ _, ?_⟩
        exact walk_issues_mono _ _ _ _ _ _
          (List.mem_append_left _ (List.mem_append_right _ (List.mem_singleton_self _)))
    | succ j =>
      cases rest with
      | nil => simp at he
      | cons b rest2 =>
        have he' : (b :: rest2).get? j = some e := by simpa using he
        have hn' : (b :: rest2).get? (j + 1) = some nxt := by simpa using hn
        rw [walk_cons_cons]
        rcases continuityStep_cases a b comp iss with h | h <;> rw [h] <;>
          exact ih j he' hn' _ _ _ _

/-- The issue list the validator publishes (`null` for an empty list) contains
whatever the accumulated list contains. -/
theorem walk_result_packaging (enh : List Enhanced) (i : Nat) (e nxt : Enhanced)
    (he : enh.get? i = some e) (hn : enh.get? (i + 1) = some nxt)
    (hfail : (continuityStep e nxt true []).1 = false) (o : Option String) (idx : Nat)
    (comp : Bool) (iss : List Issue) :
    (walk enh idx o comp iss).2.1 = false ∧
    breakIssue e nxt ∈ ((if (walk enh idx o comp iss).2.2 = [] then none
      else some ((walk enh idx o comp iss).2.2)).getD []) := by
  obtain ⟨h1, h2⟩ := walk_break enh i e nxt he hn hfail idx o comp iss
  refine ⟨h1, ?_⟩
  rcases hw : (walk enh idx o comp iss).2.2 with _ | ⟨a, t⟩
  · rw [hw] at h2; simp at h2
  · rw [hw] at h2; simpa using h2

/-- C5: whenever the effective assignee of link `i` and the effective assignor
of link `i+1` fail to match (directly, via POA pairing, or via MERS
passthrough — i.e. the continuity check fails), the validator's result is
incomplete and its issue list contains the chain-break issue quoting both
compared names for that junction; since this holds for every failing junction
at once, all breaks of a run are reported. -/
theorem claim5_all_breaks_reported (lender : Option String) (records : List RawRecord)
    (i : Nat) (e nxt : Enhanced)
    (he : ((records.enum.map (fun p => enhanceAssignment lender p.1 p.2)).get? i) = some e)
    (hn : ((records.enum.map (fun p => enhanceAssignment lender p.1 p.2)).get? (i + 1)) =
      some nxt)
    (hfail : (continuityStep e nxt true []).1 = false) :
    (validateAssignmentChain lender records).isComplete = false ∧
    breakIssue e nxt ∈ resultIssues (validateAssignmentChain lender records) := by
  cases records with
  | nil => simp [List.enum] at he
  | cons r rs =>
    simp only [validateAssignmentChain, resultIssues]
    exact walk_result_packaging _ i e nxt he hn hfail lender 1 _ _

/-- First record of the C5 break scenario. -/
def breakRecA : RawRecord :=
  { assignor_name := some "Acme Bank", assignee_name := some "Beta Corp",
    execution_date := some "2001-02-03", recording_date := some "2001-02-10",
    instrument_number := some "I-1" }

/-- Second record of the C5 break scenario (unrelated assignor). -/
def breakRecB : RawRecord :=
  { assignor_name := some "Gamma LLC", assignee_name := some "Delta Trust",
    execution_date := some "2003-04-05", recording_date := some "2003-04-12",
    instrument_number := some "I-2" }

/-- The first enhanced link of the C5 scenario. -/
def breakEnhA : Enhanced := enhanceAssignment (some "Acme Bank") 0 breakRecA

/-- The second enhanced link of the C5 scenario. -/
def breakEnhB : Enhanced := enhanceAssignment (some "Acme Bank") 1 breakRecB

set_option maxRecDepth 8000 in
unseal Rat.add Rat.sub Rat.mul Rat.inv Rat.ofScientific in
/-- C5 witness: the break between "Beta Corp" and "Gamma LLC" is reported and
the chain marked incomplete. -/
theorem claim5_witness :
    (continuityStep breakEnhA breakEnhB true []).1 = false ∧
    (validateAssignmentChain (some "Acme Bank") [breakRecA, breakRecB]).isComplete = false ∧
    breakIssue breakEnhA breakEnhB ∈
      resultIssues (validateAssignmentChain (some "Acme Bank") [breakRecA, breakRecB]) :=
  ⟨by decide,
    (claim5_all_breaks_reported (some "Acme Bank") [breakRecA, breakRecB] 0
      breakEnhA breakEnhB rfl rfl (by decide)).1,
    (claim5_all_breaks_reported (some "Acme Bank") [breakRecA, breakRecB] 0
      breakEnhA breakEnhB rfl rfl (by decide)).2⟩

/-! ### Claim C4: chronological ordering -/

/-- `charCmp` equality characterization. -/
theorem charCmp_eq_eq {a b : Char} : charCmp a b = .eq ↔ a = b := by
  unfold charCmp
  rw [Nat.compare_eq_eq]
  constructor
  · intro h
    exact Char.ext (UInt32.ext h)
  · intro h
    rw [h]

/-- Swapping the arguments of `charCmp` swaps the ordering. -/
theorem charCmp_swap (a b : Char) : (charCmp a b).swap = charCmp b a := by
  unfold charCmp
  rcases Nat.lt_trichotomy a.toNat b.toNat with h | h | h
  · rw [Nat.compare_eq_lt.2 h, Nat.compare_eq_gt.2 h]
    rfl
  · rw [Nat.compare_eq_eq.2 h, Nat.compare_eq_eq.2 h.symm]
    rfl
  · rw [Nat.compare_eq_gt.2 h, Nat.compare_eq_lt.2 h]
    rfl

/-- `charCmp` strict order is transitive. -/
theorem charCmp_lt_trans {a b c : Char} (h1 : charCmp a b = .lt) (h2 : charCmp b c = .lt) :
    charCmp a c = .lt := by
  unfold charCmp at h1 h2 ⊢
  exact Nat.compare_eq_lt.2 (lt_trans (Nat.compare_eq_lt.1 h1) (Nat.compare_eq_lt.1 h2))

/-- `listCmp` equality characterization. -/
theorem listCmp_eq_eq : ∀ {a b : List Char}, listCmp a b = .eq ↔ a = b := by
  intro a
  induction a with
  | nil => intro b; cases b <;> simp [listCmp]
  | cons x xs ih =>
    intro b
    cases b with
    | nil => simp [listCmp]
    | cons y ys =>
      simp only [listCmp]
      cases hc : charCmp x y with
      | lt =>
        simp only [List.cons.injEq]
        constructor
        · intro h; cases h
        · rintro ⟨h1, h2⟩
          rw [charCmp_eq_eq.2 h1] at hc
          cases hc
      | gt =>
        simp only [List.cons.injEq]
        constructor
        · intro h; cases h
        · rintro ⟨h1, h2⟩
          rw [charCmp_eq_eq.2 h1] at hc
          cases hc
      | eq =>
        rw [ih]
        simp [charCmp_eq_eq.1 hc]

/-- Swapping the arguments of `listCmp` swaps the ordering. -/
theorem listCmp_swap : ∀ (a b : List Char), (listCmp a b).swap = listCmp b a := by
  intro a
  induction a with
  | nil => intro b; cases b <;> rfl
  | cons x xs ih =>
    intro b
    cases b with
    | nil => rfl
    | cons y ys =>
      simp only [listCmp]
      cases hc : charCmp x y with
      | lt => rw [← charCmp_swap x y, hc]; rfl
      | gt => rw [← charCmp_swap x y, hc]; rfl
      | eq =>
        rw [← charCmp_swap x y, hc]
        simpa using ih ys

/-- `listCmp` strict order is transitive. -/
theorem listCmp_lt_trans : ∀ {a b c : List Char},
    listCmp a b = .lt → listCmp b c = .lt → listCmp a c = .lt := by
  intro a
  induction a with
  | nil =>
    intro b c h1 h2
    cases b with
    | nil => exact h2
    | cons y ys =>
      cases c with
      | nil => cases h2
      | cons z zs => rfl
  | cons x xs ih =>
    intro b c h1 h2
    cases b with
    | nil => cases h1
    | cons y ys =>
      cases c with
      | nil => cases h2
      | cons z zs =>
        simp only [listCmp] at h1 h2 ⊢
        cases hxy : charCmp x y with
        | gt => rw [hxy] at h1; cases h1
        | lt =>
          cases hyz : charCmp y z with
          | gt => rw [hyz] at h2; cases h2
          | lt => rw [charCmp_lt_trans hxy hyz]
          | eq =>
            rw [← charCmp_eq_eq.1 hyz, hxy]
        | eq =>
          rw [hxy] at h1
          cases hyz : charCmp y z with
          | gt => rw [hyz] at h2; cases h2
          | lt => rw [charCmp_eq_eq.1 hxy, hyz]
          | eq =>
            rw [hyz] at h2
            rw [charCmp_eq_eq.1 hxy, hyz]
            exact ih h1 h2

/-- `strCmp` equality characterization. -/
theorem strCmp_eq_eq {a b : String} : strCmp a b = .eq ↔ a = b := by
  unfold strCmp
  rw [listCmp_eq_eq]
  constructor
  · intro h
    cases a; cases b
    exact congrArg String.mk h
  · intro h; rw [h]

/-- Swapping the arguments of `strCmp` swaps the ordering. -/
theorem strCmp_swap (a b : String) : (strCmp a b).swap = strCmp b a := listCmp_swap _ _

/-- `strCmp` strict order is transitive. -/
theorem strCmp_lt_trans {a b c : String} (h1 : strCmp a b = .lt) (h2 : strCmp b c = .lt) :
    strCmp a c = .lt := listCmp_lt_trans h1 h2

/-- Transitivity of the non-strict string order. -/
theorem strCmp_notGt_trans {x y z : String} (h1 : strCmp x y ≠ .gt) (h2 : strCmp y z ≠ .gt) :
    strCmp x z ≠ .gt := by
  cases hxy : strCmp x y with
  | gt => exact absurd hxy h1
  | eq => rw [strCmp_eq_eq.1 hxy]; exact h2
  | lt =>
    cases hyz : strCmp y z with
    | gt => exact absurd hyz h2
    | eq =>
      rw [← strCmp_eq_eq.1 hyz, hxy]
      simp
    | lt =>
      rw [strCmp_lt_trans hxy hyz]
      simp

/-- Swapping the arguments of the record comparator swaps the ordering. -/
theorem cmpRec_swap (a b : RawRecord) : (cmpRec a b).swap = cmpRec b a := by
  unfold cmpRec
  cases h1 : strCmp (execKey a) (execKey b) with
  | lt =>
    rw [← strCmp_swap (execKey a) (execKey b), h1]
    rfl
  | gt =>
    rw [← strCmp_swap (execKey a) (execKey b), h1]
    rfl
  | eq =>
    rw [← strCmp_swap (execKey a) (execKey b), h1]
    simpa using strCmp_swap (recKey a) (recKey b)

/-- Being at-most (`≠ .gt`) under the record comparator, unfolded. -/
theorem cmpRec_notGt_iff {a b : RawRecord} : cmpRec a b ≠ .gt ↔
    strCmp (execKey a) (execKey b) = .lt ∨
    (execKey a = execKey b ∧ strCmp (recKey a) (recKey b) ≠ .gt) := by
  unfold cmpRec
  cases h : strCmp (execKey a) (execKey b) with
  | lt => simp
  | eq => simp [strCmp_eq_eq.1 h]
  | gt =>
    simp only [ne_eq, not_true_eq_false, false_iff, not_or, not_and]
    constructor
    · simp
    · intro heq
      rw [strCmp_eq_eq.2 heq] at h
      cases h

/-- The record comparator's non-strict order is transitive. -/
theorem cmpRec_trans {a b c : RawRecord} (h1 : cmpRec a b ≠ .gt) (h2 : cmpRec b c ≠ .gt) :
    cmpRec a c ≠ .gt := by
  rw [cmpRec_notGt_iff] at h1 h2 ⊢
  rcases h1 with h1 | ⟨h1e, h1r⟩ <;> rcases h2 with h2 | ⟨h2e, h2r⟩
  · exact .inl (strCmp_lt_trans h1 h2)
  · exact .inl (by rw [← h2e]; exact h1)
  · exact .inl (by rw [h1e]; exact h2)
  · exact .inr ⟨h1e.trans h2e, strCmp_notGt_trans h1r h2r⟩

/-- The stable insertion is a permutation. -/
theorem insertRec_perm (a : RawRecord) (l : List RawRecord) :
    (insertRec a l).Perm (a :: l) := by
  induction l with
  | nil => simp [insertRec]
  | cons b t ih =>
    simp only [insertRec]
    split
    · exact (ih.cons b).trans (List.Perm.swap a b t)
    · exact List.Perm.refl _

/-- C4: the sequencer output is a permutation of its input. -/
theorem orderAssignments_perm (l : List RawRecord) :
    (orderAssignmentsChronologically l).Perm l := by
  induction l with
  | nil => simp [orderAssignmentsChronologically]
  | cons a t ih =>
    simp only [orderAssignmentsChronologically]
    exact (insertRec_perm a _).trans (ih.cons a)

/-- Inserting into a sorted list preserves sortedness. -/
theorem insertRec_sorted (a : RawRecord) (l : List RawRecord)
    (hl : List.Sorted (fun x y => cmpRec x y ≠ .gt) (l)) :
    List.Sorted (fun x y => cmpRec x y ≠ .gt) (insertRec a l) := by
  induction l with
  | nil => simp [insertRec]
  | cons b t ih =>
    rw [List.sorted_cons] at hl
    simp only [insertRec]
    split
    case isTrue h =>
      rw [List.sorted_cons]
      refine ⟨?_, ih hl.2⟩
      intro x hx
      rcases List.mem_cons.1 ((insertRec_perm a t).subset hx) with hxa | hxt
      · rw [hxa, ← cmpRec_swap a b, h]
        decide
      · exact hl.1 x hxt
    case isFalse h =>
      rw [List.sorted_cons]
      refine ⟨?_, List.sorted_cons.2 hl⟩
      intro x hx
      rcases List.mem_cons.1 hx with hxb | hxt
      · rw [hxb]; exact h
      · exact cmpRec_trans h (hl.1 x hxt)

/-- C4: the sequencer output is sorted by the date comparator's non-strict
order. -/
theorem orderAssignments_sorted (l : List RawRecord) :
    List.Sorted (fun x y => cmpRec x y ≠ .gt) (orderAssignmentsChronologically l) := by
  induction l with
  | nil => simp [orderAssignmentsChronologically]
  | cons a t ih =>
    simp only [orderAssignmentsChronologically]
    exact insertRec_sorted a _ ih

/-- Inserting a record not selected by `P` leaves the `P`-filtered list
unchanged. -/
theorem filter_insertRec_neg (a : RawRecord) (l : List RawRecord) (P : RawRecord → Bool)
    (ha : ¬ P a = true) : (insertRec a l).filter P = l.filter P := by
  induction l with
  | nil => simp [insertRec, List.filter_cons, ha]
  | cons b t ih =>
    simp only [insertRec]
    split
    · rw [List.filter_cons, List.filter_cons]
      cases hb : P b <;> simp [ih]
    · rw [List.filter_cons_of_neg ha]

/-- Inserting a `P`-selected record that never compares strictly greater than
a `P`-selected element puts it at the head of the `P`-filtered list. -/
theorem filter_insertRec_pos (a : RawRecord) (l : List RawRecord) (P : RawRecord → Bool)
    (hp : P a = true) (hall : ∀ b ∈ l, P b = true → cmpRec a b ≠ .gt) :
    (insertRec a l).filter P = a :: l.filter P := by
  induction l with
  | nil => simp [insertRec, List.filter_cons, hp]
  | cons b t ih =>
    simp only [insertRec]
    split
    case isTrue h =>
      have hb : ¬ P b = true := fun hPb => (hall b (List.mem_cons_self b t) hPb) h
      rw [List.filter_cons_of_neg hb, List.filter_cons_of_neg hb]
      exact ih (fun x hx hPx => hall x (List.mem_cons_of_mem b hx) hPx)
    case isFalse h =>
      rw [List.filter_cons_of_pos hp]

/-- C4: records selected by any comparator-equivalence class keep their
original order (stability of the sort). -/
theorem orderAssignments_stable (l : List RawRecord) (P : RawRecord → Bool)
    (hP : ∀ a ∈ l, ∀ b ∈ l, P a = true → P b = true → cmpRec a b = .eq) :
    (orderAssignmentsChronologically l).filter P = l.filter P := by
  induction l with
  | nil => rfl
  | cons a t ih =>
    have hPt : ∀ x ∈ t, ∀ y ∈ t, P x = true → P y = true → cmpRec x y = .eq :=
      fun x hx y hy => hP x (List.mem_cons_of_mem a hx) y (List.mem_cons_of_mem a hy)
    simp only [orderAssignmentsChronologically]
    cases hpa : P a with
    | false =>
      rw [filter_insertRec_neg _ _ _ (by simp [hpa]), ih hPt,
        List.filter_cons_of_neg (by simp [hpa])]
    | true =>
      rw [filter_insertRec_pos _ _ _ hpa ?hall, ih hPt, List.filter_cons_of_pos hpa]
      case hall =>
        intro b hb hPb
        have hbt : b ∈ t := (orderAssignments_perm t).subset hb
        rw [hP a (List.mem_cons_self a t) b (List.mem_cons_of_mem a hbt) hpa hPb]
        simp

/-- A record lacking both execution-date fields gets the sentinel execution
key `1900-01-01`. -/
theorem execKey_sentinel (a : RawRecord)
    (h : ¬ truthy (jsOr a.execution_date a.assignmentDate) = true) :
    execKey a = "1900-01-01" := by
  unfold execKey jsGetD
  cases hj : jsOr a.execution_date a.assignmentDate with
  | none => rfl
  | some s =>
    rw [hj] at h
    simp only [truthy] at h
    simp at h
    simp [h]

/-- The dated record of the C4 counterexample (executed before the 1900
sentinel). -/
def earlyRec : RawRecord := { execution_date := some "1899-06-01" }

/-- The record of the C4 counterexample with no dates at all. -/
def undatedRec : RawRecord := {}

/-- C4 counterexample: a record lacking both dates is **not** placed before
every dated record — a record executed `1899-06-01` (before the `1900-01-01`
sentinel) sorts in front of it, from either input order. -/
theorem claim4_counterexample :
    undatedRec.execution_date = none ∧ undatedRec.assignmentDate = none ∧
    undatedRec.recording_date = none ∧ undatedRec.recordingDate = none ∧
    earlyRec.execution_date = some "1899-06-01" ∧
    orderAssignmentsChronologically [earlyRec, undatedRec] = [earlyRec, undatedRec] ∧
    orderAssignmentsChronologically [undatedRec, earlyRec] = [earlyRec, undatedRec] := by
  decide

/-- C4 (amended): `orderAssignmentsChronologically` stably sorts by the
comparator over `(execution key, recording key)`: the output is a permutation
of the input, sorted under the comparator's non-strict order, any class of
mutually equal-comparing records keeps its original order, and a record
lacking both dates is ranked at the sentinel execution date `1900-01-01`
(hence before records dated after the sentinel but after ones dated
earlier). -/
theorem claim4_amended (l : List RawRecord) :
    (orderAssignmentsChronologically l).Perm l ∧
    List.Sorted (fun x y => cmpRec x y ≠ .gt) (orderAssignmentsChronologically l) ∧
    (∀ P : RawRecord → Bool,
      (∀ a ∈ l, ∀ b ∈ l, P a = true → P b = true → cmpRec a b = .eq) →
      (orderAssignmentsChronologically l).filter P = l.filter P) ∧
    (∀ a : RawRecord, ¬ truthy (jsOr a.execution_date a.assignmentDate) = true →
      execKey a = "1900-01-01") :=
  ⟨orderAssignments_perm l, orderAssignments_sorted l,
    fun P hP => orderAssignments_stable l P hP,
    fun a h => execKey_sentinel a h⟩

/-- C4 witness: the amended ordering statement applied to the concrete
two-record list. -/
theorem claim4_witness :
    (orderAssignmentsChronologically [earlyRec, undatedRec]).filter
        (fun r : RawRecord => r.instrument_number.isSome) =
      ([earlyRec, undatedRec].filter (fun r : RawRecord => r.instrument_number.isSome)) ∧
    execKey undatedRec = "1900-01-01" :=
  ⟨(claim4_amended [earlyRec, undatedRec]).2.2.1 _ (by decide),
    (claim4_amended [earlyRec, undatedRec]).2.2.2 undatedRec (by decide)⟩

end NplVision
